import Mathlib

/-!
Shallow embedding of the goblet minimax engine (src/main.rs) and
verification of the spec claims about it.

Rust fixed-size arrays are modelled as Lean lists read with getD and
updated with List.set; all reads performed by the embedded code are
in bounds on the 4x4 board shapes the program constructs, where the
two representations agree.  The Rust `Node` struct (score, turn,
state) with its three-variant `NodeState` enum is flattened into a
single three-variant inductive, each variant carrying score and turn.
Rust panics (the `unwrap` in `update_score`) are modelled by Option.
-/

namespace Goblet

def NUM_SIZES : Nat := 4
def NUM_EACH_SIZE : Int := 3
def BOARD_DIM : Nat := 4

inductive Color where
  | empty
  | white
  | black
deriving DecidableEq

/-- Rust Color::other: `if self == White { Black } else { White }`. -/
def Color.other (c : Color) : Color :=
  if c = Color.white then Color.black else Color.white

structure Stack where
  pieces : List Color
deriving DecidableEq

def Stack.emptyStack : Stack :=
  ⟨List.replicate NUM_SIZES Color.empty⟩

/-- Rust Stack::top scans indices NUM_SIZES-1 down to 0 and returns i+1 at
the first non-empty slot, else 0.  Equivalently, one past the highest
occupied index of the list. -/
def listTop : List Color → Nat
  | [] => 0
  | c :: rest =>
    let t := listTop rest
    if t ≠ 0 then t + 1 else if c ≠ Color.empty then 1 else 0

def Stack.top (s : Stack) : Nat := listTop s.pieces

/-- Rust Stack::top_color scans from the highest index down and returns the
first non-empty color, else Empty. -/
def listTopColor : List Color → Color
  | [] => Color.empty
  | c :: rest =>
    let tc := listTopColor rest
    if tc ≠ Color.empty then tc else c

def Stack.top_color (s : Stack) : Color := listTopColor s.pieces

structure Board where
  contents : List (List Stack)
deriving DecidableEq

def Board.emptyBoard : Board :=
  ⟨List.replicate BOARD_DIM (List.replicate BOARD_DIM Stack.emptyStack)⟩

def Board.cell (b : Board) (r c : Nat) : Stack :=
  (b.contents.getD r []).getD c Stack.emptyStack

/-- Write color `col` into slot `size` of the stack at (r, c), as the Rust
assignments `board.contents[r][c].pieces[size] = col` do. -/
def Board.setPiece (b : Board) (r c size : Nat) (col : Color) : Board :=
  ⟨b.contents.set r
    ((b.contents.getD r []).set c
      ⟨((b.contents.getD r []).getD c Stack.emptyStack).pieces.set size col⟩)⟩

structure GameState where
  white_pieces : List Int
  black_pieces : List Int
  board : Board
  turn : Color
deriving DecidableEq

def GameState.new : GameState :=
  { white_pieces := List.replicate NUM_SIZES NUM_EACH_SIZE
    black_pieces := List.replicate NUM_SIZES NUM_EACH_SIZE
    board := Board.emptyBoard
    turn := Color.white }

inductive GameMove where
  | place (size : Nat) (dest : Nat × Nat)
  | move (source : Nat × Nat) (dest : Nat × Nat)
deriving DecidableEq

/-- Rust GameState::apply_move.  For a Move it writes the current turn's
color at the destination slot `source.top() - 1` and does not touch the
source stack; for a Place it writes the current turn's color at slot
`size` of the destination.  Then the turn flips (next_turn). -/
def GameState.apply_move (gs : GameState) (m : GameMove) : GameState :=
  match m with
  | GameMove.move (sr, sc) (dr, dc) =>
    let idx := (gs.board.cell sr sc).top - 1
    { gs with board := gs.board.setPiece dr dc idx gs.turn, turn := gs.turn.other }
  | GameMove.place size (dr, dc) =>
    { gs with board := gs.board.setPiece dr dc size gs.turn, turn := gs.turn.other }

/-- Rust GameState::branch.  Iterates the precomputed 4x4 grid of stack
tops in row-major destination order; skips full destinations; first emits
Place children in ascending size for each reserve size with positive
count and size ≥ destination top (without decrementing the reserve count,
exactly as the source does), then Move children over sources in row-major
order whose top strictly exceeds the destination top and which are a
different cell.  A Move child copies the source's top piece color to the
same slot at the destination and clears the source slot.  Every child has
the turn flipped. -/
def GameState.branch (gs : GameState) : List (GameMove × GameState) :=
  let available := if gs.turn = Color.white then gs.white_pieces else gs.black_pieces
  let tops : List (List Nat) := gs.board.contents.map fun row => row.map Stack.top
  tops.enum.flatMap fun destRowPair =>
    destRowPair.2.enum.flatMap fun destColPair =>
      let destRow := destRowPair.1
      let destCol := destColPair.1
      let destTop := destColPair.2
      if destTop = BOARD_DIM then []
      else
        (available.enum.filterMap fun sizeCount =>
          let size := sizeCount.1
          let count := sizeCount.2
          if 0 < count ∧ destTop ≤ size then
            some (GameMove.place size (destRow, destCol),
              { gs with
                board := gs.board.setPiece destRow destCol size gs.turn
                turn := gs.turn.other })
          else none)
        ++
        (tops.enum.flatMap fun sourceRowPair =>
          sourceRowPair.2.enum.filterMap fun sourceColPair =>
            let sourceRow := sourceRowPair.1
            let sourceCol := sourceColPair.1
            let sourceTop := sourceColPair.2
            if destTop < sourceTop ∧ (sourceRow ≠ destRow ∨ sourceCol ≠ destCol) then
              let currentTop := sourceTop - 1
              let pieceColor := (gs.board.cell sourceRow sourceCol).pieces.getD currentTop Color.empty
              some (GameMove.move (sourceRow, sourceCol) (destRow, destCol),
                { gs with
                  board := (gs.board.setPiece destRow destCol currentTop pieceColor).setPiece
                    sourceRow sourceCol currentTop Color.empty
                  turn := gs.turn.other })
            else none)

inductive Score where
  | whiteFavored
  | blackFavored
  | balanced (n : Int)
deriving DecidableEq

def Score.for_color (c : Color) : Score :=
  if c = Color.white then Score.whiteFavored else Score.blackFavored

/-- Rust `impl PartialOrd for Score` (total, so modelled as Ordering):
equal values compare equal; otherwise the match arms in source order. -/
def Score.cmp (a b : Score) : Ordering :=
  if a = b then Ordering.eq
  else match a, b with
    | Score.whiteFavored, _ => Ordering.gt
    | _, Score.blackFavored => Ordering.gt
    | Score.blackFavored, _ => Ordering.lt
    | _, Score.whiteFavored => Ordering.lt
    | Score.balanced m, Score.balanced n => compare m n

/-- The first win loop of Rust GameState::raw_score: for each index i,
whether row i or column i consists entirely of top color `cw`. -/
def rowColWinB (gs : GameState) (cw : Color) : Bool :=
  (List.range BOARD_DIM).any fun i =>
    ((List.range BOARD_DIM).all fun col => (gs.board.cell i col).top_color = cw)
    || ((List.range BOARD_DIM).all fun row => (gs.board.cell row i).top_color = cw)

/-- The second win check of Rust GameState::raw_score: the main diagonal or
the anti-diagonal consists entirely of top color `cw`. -/
def diagWinB (gs : GameState) (cw : Color) : Bool :=
  ((List.range BOARD_DIM).all fun i => (gs.board.cell i i).top_color = cw)
  || ((List.range BOARD_DIM).all fun i =>
        (gs.board.cell i (BOARD_DIM - i - 1)).top_color = cw)

/-- The accumulation loop of Rust GameState::raw_score: over all cells in
row-major order, skip empty tops, otherwise add multiplier (+1 White,
-1 otherwise) times base (3 on either diagonal, else 2). -/
def heurFold (gs : GameState) : Int :=
  (List.range BOARD_DIM).foldl (fun acc row =>
    (List.range BOARD_DIM).foldl (fun acc2 col =>
      let color := (gs.board.cell row col).top_color
      if color = Color.empty then acc2
      else
        let base : Int := if row = col ∨ row = BOARD_DIM - col - 1 then 3 else 2
        let mult : Int := if color = Color.white then 1 else -1
        acc2 + mult * base) acc) 0

/-- Rust GameState::raw_score: first the row/column win scan with early
return, then the two diagonals, then the positional heuristic sum. -/
def GameState.raw_score (gs : GameState) : Score :=
  let cw := gs.turn.other
  if rowColWinB gs cw then Score.for_color cw
  else if diagWinB gs cw then Score.for_color cw
  else Score.balanced (heurFold gs)

/-- The Rust Node struct (score, turn, state : NodeState) flattened: the
three NodeState variants GameState, Branches, Resolved each carry the
struct's score and turn fields. -/
inductive Node where
  | game (score : Score) (turn : Color) (gs : GameState)
  | branches (score : Score) (turn : Color) (bs : List (GameMove × Node))
  | resolved (score : Score) (turn : Color)

def Node.score : Node → Score
  | Node.game s _ _ => s
  | Node.branches s _ _ => s
  | Node.resolved s _ => s

def Node.turn : Node → Color
  | Node.game _ t _ => t
  | Node.branches _ t _ => t
  | Node.resolved _ t => t

/-- The (move, child) list of an expanded node; empty in the other states. -/
def Node.children : Node → List (GameMove × Node)
  | Node.branches _ _ bs => bs
  | _ => []

/-- Rust Node::new: score is the static evaluation of the position. -/
def Node.new (gs : GameState) : Node :=
  Node.game gs.raw_score gs.turn gs

/-- Rust `matches!(score, WhiteFavored | BlackFavored)`. -/
def Score.isWinMarker : Score → Bool
  | Score.balanced _ => false
  | _ => true

/-- Rust Iterator::max over Scores via Ord::cmp (keeps the later element on
ties, which are value-equal for Score). -/
def listMax : List Score → Option Score
  | [] => none
  | x :: xs => some (xs.foldl (fun acc y => if Score.cmp acc y = Ordering.gt then acc else y) x)

/-- Rust Iterator::min over Scores via Ord::cmp (keeps the earlier element
on ties). -/
def listMin : List Score → Option Score
  | [] => none
  | x :: xs => some (xs.foldl (fun acc y => if Score.cmp y acc = Ordering.lt then y else acc) x)

/-- The max/min selection in Rust Node::update_score: max of the children's
scores when the node's side to move is White, else min. -/
def optimizedScore (t : Color) (scores : List Score) : Option Score :=
  if t = Color.white then listMax scores else listMin scores

/-- Rust Node::update_score.  Only acts when the state is Branches: sets
the score to the unwrapped max/min of the children's scores (none models
the unwrap panic on an empty children list) and moves to Resolved when
the new score is a win marker. -/
def updateScore : Node → Option Node
  | Node.branches _ t bs =>
    match optimizedScore t (bs.map fun p => p.2.score) with
    | none => none
    | some s =>
      some (if s.isWinMarker then Node.resolved s t else Node.branches s t bs)
  | n => some n

mutual

/-- Rust Node::branch (`expand`).  In the GameState arm the children are
built from GameState::branch, deepened when depth > 1, then update_score
runs while the state is still GameState (so it is the source's no-op) and
only afterwards does the state become Branches.  In the Branches arm,
depth == 1 is a no-op, otherwise every child is deepened and update_score
runs on the Branches state.  Resolved nodes are untouched. -/
def Node.branch : Node → Int → Option Node
  | Node.game sc t gs, depth =>
    let bs := (GameState.branch gs).map fun p => (p.1, Node.new p.2)
    match (if depth > 1 then branchList bs (depth - 1) else some bs) with
    | none => none
    | some bs2 =>
      match updateScore (Node.game sc t gs) with
      | none => none
      | some u => some (Node.branches u.score u.turn bs2)
  | Node.branches sc t bs, depth =>
    if depth = 1 then some (Node.branches sc t bs)
    else
      match branchList bs (depth - 1) with
      | none => none
      | some bs2 => updateScore (Node.branches sc t bs2)
  | Node.resolved sc t, _ => some (Node.resolved sc t)
termination_by n depth => (depth.toNat, sizeOf n)
decreasing_by
  all_goals simp_wf
  all_goals first
    | exact Prod.Lex.left _ _ (by omega)
    | (rcases Nat.eq_zero_or_pos depth.toNat with h0 | h0
       · simp only [h0, Nat.zero_sub]
         exact Prod.Lex.right _ (by omega)
       · exact Prod.Lex.left _ _ (by omega))

/-- Sequential deepening of a (move, child) list, propagating a panic. -/
def branchList : List (GameMove × Node) → Int → Option (List (GameMove × Node))
  | [], _ => some []
  | (m, n) :: rest, depth =>
    match Node.branch n depth with
    | none => none
    | some n2 =>
      match branchList rest depth with
      | none => none
      | some rest2 => some ((m, n2) :: rest2)
termination_by l depth => (depth.toNat, sizeOf l)
decreasing_by
  all_goals simp_wf
  all_goals first
    | exact Prod.Lex.left _ _ (by omega)
    | (apply Prod.Lex.right; omega)

end

/-! Helper definitions used to state the claims. -/

def isPlaceB : GameMove → Bool
  | GameMove.place _ _ => true
  | _ => false

def isMoveB : GameMove → Bool
  | GameMove.move _ _ => true
  | _ => false

def isResolvedB : Node → Bool
  | Node.resolved _ _ => true
  | _ => false

/-- An unexpanded leaf whose stored score is its position's own static
evaluation. -/
def leafOwnStatic : Node → Bool
  | Node.game s _ g => s == g.raw_score
  | _ => false

/-- Number of pieces of color `c` and size `size` placed on the board. -/
def placedCount (gs : GameState) (c : Color) (size : Nat) : Nat :=
  (gs.board.contents.map fun row =>
    row.countP fun st => st.pieces.getD size Color.empty == c).sum

/-- The spec's inventory invariant: for each player and each size, pieces
of that size placed by that player plus that player's remaining count of
that size equals NUM_EACH_SIZE. -/
def invariantB (gs : GameState) : Bool :=
  (List.range NUM_SIZES).all fun size =>
    ((placedCount gs Color.white size : Int) + gs.white_pieces.getD size 0 == NUM_EACH_SIZE)
    && ((placedCount gs Color.black size : Int) + gs.black_pieces.getD size 0 == NUM_EACH_SIZE)

/-- Position after White placed a size-0 piece at (0, 0): Black to move. -/
def gs1 : GameState :=
  { white_pieces := [2, 3, 3, 3]
    black_pieces := [3, 3, 3, 3]
    board := Board.emptyBoard.setPiece 0 0 0 Color.white
    turn := Color.black }

/-- Position with a completed Black top-color row 0 (sizes 0, 1, 2, 3) and
White to move, so the static evaluator reports BlackFavored. -/
def gsWin : GameState :=
  { white_pieces := [3, 3, 3, 3]
    black_pieces := [2, 2, 2, 2]
    board := (((Board.emptyBoard.setPiece 0 0 0 Color.black).setPiece 0 1 1
      Color.black).setPiece 0 2 2 Color.black).setPiece 0 3 3 Color.black
    turn := Color.white }

def fullStack : Stack := ⟨[Color.white, Color.white, Color.white, Color.white]⟩

/-- A completely full board: every stack's top is NUM_SIZES, so no
destination cell is available and the move generator returns no moves. -/
def gsFull : GameState :=
  { white_pieces := [0, 0, 0, 0]
    black_pieces := [0, 0, 0, 0]
    board := ⟨List.replicate BOARD_DIM (List.replicate BOARD_DIM fullStack)⟩
    turn := Color.black }

/-- A one-child branch list whose child carries a WhiteFavored score. -/
def bsW : List (GameMove × Node) :=
  [(GameMove.place 0 (0, 0), Node.game Score.whiteFavored Color.black GameState.new)]

/-- Expanding an unexpanded leaf at depth 1: the children are exactly the
generator's pairs wrapped by Node::new, the state becomes Branches, and the
score and turn are unchanged (the source's update_score call runs before
the state changes, so it does not act). -/
lemma branch_game_one (sc : Score) (t : Color) (gs : GameState) :
    Node.branch (Node.game sc t gs) 1 =
      some (Node.branches sc t ((GameState.branch gs).map fun p => (p.1, Node.new p.2))) := by
  rw [Node.branch]
  simp [updateScore, Node.score, Node.turn]

/-! Claim theorems. -/

theorem C10_color_other :
    Color.other Color.white = Color.black
    ∧ Color.other Color.black = Color.white
    ∧ Color.other Color.empty = Color.white
    ∧ Color.other (Color.other Color.empty) = Color.black
    ∧ ∀ c : Color, Color.other c ≠ Color.empty := by
  refine ⟨rfl, rfl, rfl, rfl, ?_⟩
  intro c
  cases c <;> decide

theorem C9_score_order (a b : Score) (m n : Int) :
    (Score.cmp a b = Ordering.lt ∨ Score.cmp a b = Ordering.eq ∨ Score.cmp a b = Ordering.gt)
    ∧ (Score.cmp a b = Ordering.eq ↔ a = b)
    ∧ (Score.cmp a b = Ordering.lt ↔ Score.cmp b a = Ordering.gt)
    ∧ Score.cmp Score.whiteFavored (Score.balanced n) = Ordering.gt
    ∧ Score.cmp (Score.balanced n) Score.whiteFavored = Ordering.lt
    ∧ Score.cmp Score.whiteFavored Score.blackFavored = Ordering.gt
    ∧ Score.cmp Score.blackFavored Score.whiteFavored = Ordering.lt
    ∧ Score.cmp Score.blackFavored (Score.balanced n) = Ordering.lt
    ∧ Score.cmp (Score.balanced n) Score.blackFavored = Ordering.gt
    ∧ Score.cmp Score.whiteFavored Score.whiteFavored = Ordering.eq
    ∧ Score.cmp Score.blackFavored Score.blackFavored = Ordering.eq
    ∧ Score.cmp (Score.balanced m) (Score.balanced n) = compare m n
    ∧ Score.cmp Score.whiteFavored (Score.balanced n) ≠ Ordering.eq
    ∧ Score.cmp Score.blackFavored (Score.balanced n) ≠ Ordering.eq
    ∧ Score.cmp (Score.balanced n) Score.whiteFavored ≠ Ordering.eq
    ∧ Score.cmp (Score.balanced n) Score.blackFavored ≠ Ordering.eq := by
  have hbal : ∀ x y : Int, Score.cmp (Score.balanced x) (Score.balanced y) = compare x y := by
    intro x y
    by_cases h : x = y
    · subst h
      simp only [Score.cmp, if_pos rfl]
      exact (compare_eq_iff_eq.2 rfl).symm
    · simp [Score.cmp, h]
  have heq : ∀ x y : Score, Score.cmp x y = Ordering.eq ↔ x = y := by
    intro x y
    by_cases h : x = y
    · subst h; simp [Score.cmp]
    · simp only [Score.cmp, if_neg h, h, iff_false]
      cases x <;> cases y <;> simp_all [compare_eq_iff_eq]
  have hswap : ∀ x y : Score, Score.cmp x y = Ordering.lt ↔ Score.cmp y x = Ordering.gt := by
    intro x y
    by_cases h : x = y
    · subst h; cases x <;> simp [Score.cmp]
    · have h2 : ¬y = x := fun e => h e.symm
      cases x <;> cases y <;>
        simp_all [Score.cmp, compare_lt_iff_lt, compare_gt_iff_gt]
  refine ⟨?_, heq a b, hswap a b, ?_, ?_, ?_, ?_, ?_, ?_, ?_, ?_, hbal m n, ?_, ?_, ?_, ?_⟩
  · rcases h : Score.cmp a b with _ | _ | _
    · exact Or.inl rfl
    · exact Or.inr (Or.inl rfl)
    · exact Or.inr (Or.inr rfl)
  all_goals simp [Score.cmp]

set_option maxRecDepth 400000 in
theorem C1_leaf_expand_score_not_backed_up :
    ((Node.branch (Node.new GameState.new) 1).map Node.score) = some (Score.balanced 0)
    ∧ ((Node.branch (Node.new GameState.new) 1).map fun nd =>
        optimizedScore nd.turn (nd.children.map fun p => p.2.score))
      = some (some (Score.balanced 3)) := by
  simp only [Node.new, branch_game_one]
  constructor <;> decide

set_option maxRecDepth 400000 in
theorem C2_place_child_keeps_reserve :
    invariantB GameState.new = true
    ∧ ((GameState.new.branch.head?).map fun p => p.1) = some (GameMove.place 0 (0, 0))
    ∧ ((GameState.new.branch.head?).map fun p => p.2.white_pieces) = some [3, 3, 3, 3]
    ∧ ((GameState.new.branch.head?).map fun p => invariantB p.2) = some false := by
  refine ⟨by decide, by decide, by decide, by decide⟩

set_option maxRecDepth 400000 in
theorem C3_apply_move_not_round_trip :
    ((gs1.branch.find? fun p => isMoveB p.1).map fun p => p.1) = some (GameMove.move (0, 0) (0, 1))
    ∧ ((gs1.branch.find? fun p => isMoveB p.1).map fun p => p.2 == gs1.apply_move p.1) = some false
    ∧ ((gs1.branch.find? fun p => isMoveB p.1).map fun p =>
        ((p.2.board.cell 0 0).top_color, ((gs1.apply_move p.1).board.cell 0 0).top_color,
         (p.2.board.cell 0 1).top_color, ((gs1.apply_move p.1).board.cell 0 1).top_color))
      = some (Color.empty, Color.white, Color.white, Color.black) := by
  refine ⟨by decide, by decide, by decide⟩

theorem C4_no_moves_expand_defined (gs : GameState) (d : Int)
    (hmoves : GameState.branch gs = []) (_hd : 1 ≤ d) :
    Node.branch (Node.new gs) d = some (Node.branches gs.raw_score gs.turn []) := by
  rw [Node.new, Node.branch]
  simp [hmoves, branchList, updateScore, Node.score, Node.turn]

theorem C4_witness :
    GameState.branch gsFull = [] ∧ (1 : Int) ≤ 1
    ∧ Node.branch (Node.new gsFull) 1 = some (Node.branches gsFull.raw_score gsFull.turn []) :=
  ⟨by decide, by decide, C4_no_moves_expand_defined gsFull 1 (by decide) (by decide)⟩

set_option maxRecDepth 400000 in
theorem C5_counterexample :
    (((Node.branch (Node.new GameState.new) 1).map fun nd => nd.children.length)
      = some 48) = False := by
  simp only [Node.new, branch_game_one]
  exact eq_false (by decide)

set_option maxRecDepth 1000000 in
theorem C5_initial_expand_64_children :
    ((Node.branch (Node.new GameState.new) 1).map fun nd => nd.children.length) = some 64
    ∧ ((Node.branch (Node.new GameState.new) 1).map fun nd =>
        nd.children.all fun p => isPlaceB p.1 && leafOwnStatic p.2) = some true := by
  simp only [Node.new, branch_game_one]
  constructor <;> decide

set_option maxRecDepth 400000 in
theorem C6_counterexample :
    (Node.new gsWin).score.isWinMarker = true
    ∧ ((Node.branch (Node.new gsWin) 1).map isResolvedB) = some false
    ∧ ((Node.branch (Node.new gsWin) 1).map fun nd => nd.children.length == 0) = some false := by
  refine ⟨by decide, ?_, ?_⟩ <;> simp only [Node.new, branch_game_one] <;> decide

theorem C6_win_marker_leaf_still_expands (gs : GameState)
    (_h : gs.raw_score.isWinMarker = true) :
    Node.branch (Node.new gs) 1 =
      some (Node.branches gs.raw_score gs.turn
        ((GameState.branch gs).map fun p => (p.1, Node.new p.2))) := by
  simp only [Node.new, branch_game_one]

set_option maxRecDepth 400000 in
theorem C6_witness :
    gsWin.raw_score.isWinMarker = true
    ∧ Node.branch (Node.new gsWin) 1 =
        some (Node.branches gsWin.raw_score gsWin.turn
          ((GameState.branch gsWin).map fun p => (p.1, Node.new p.2))) :=
  ⟨by decide, C6_win_marker_leaf_still_expands gsWin (by decide)⟩

theorem C7_resolved_short_circuit (sc s : Score) (t : Color)
    (bs : List (GameMove × Node)) (d : Int)
    (hopt : optimizedScore t (bs.map fun p => p.2.score) = some s)
    (hwin : s.isWinMarker = true) :
    updateScore (Node.branches sc t bs) = some (Node.resolved s t)
    ∧ Node.branch (Node.resolved s t) d = some (Node.resolved s t) := by
  constructor
  · simp [updateScore, hopt, hwin]
  · rw [Node.branch]

theorem C7_witness :
    optimizedScore Color.white (bsW.map fun p => p.2.score) = some Score.whiteFavored
    ∧ Score.whiteFavored.isWinMarker = true
    ∧ updateScore (Node.branches (Score.balanced 0) Color.white bsW)
        = some (Node.resolved Score.whiteFavored Color.white)
    ∧ Node.branch (Node.resolved Score.whiteFavored Color.white) 3
        = some (Node.resolved Score.whiteFavored Color.white) :=
  ⟨by decide, by decide,
    (C7_resolved_short_circuit (Score.balanced 0) Score.whiteFavored Color.white bsW 3
      (by decide) (by decide)).1,
    (C7_resolved_short_circuit (Score.balanced 0) Score.whiteFavored Color.white bsW 3
      (by decide) (by decide)).2⟩

/-- Modelled on the claim's wording: some full row, full column, or either
full diagonal of top-colors equals `w`. -/
def winLineFor (gs : GameState) (w : Color) : Bool :=
  ((List.range BOARD_DIM).any fun r =>
    (List.range BOARD_DIM).all fun c => (gs.board.cell r c).top_color = w)
  || ((List.range BOARD_DIM).any fun c =>
    (List.range BOARD_DIM).all fun r => (gs.board.cell r c).top_color = w)
  || ((List.range BOARD_DIM).all fun i => (gs.board.cell i i).top_color = w)
  || ((List.range BOARD_DIM).all fun i =>
        (gs.board.cell i (BOARD_DIM - i - 1)).top_color = w)

/-- The claim's per-cell contribution: 0 on an empty top, otherwise
(+1 for White, -1 for Black) times (3 on the main or anti-diagonal,
else 2). -/
def specCellScore (gs : GameState) (r c : Nat) : Int :=
  let tc := (gs.board.cell r c).top_color
  if tc = Color.empty then 0
  else (if tc = Color.white then 1 else -1) *
    (if r = c ∨ r + c = BOARD_DIM - 1 then 3 else 2)

/-- The claim's heuristic: the sum of the contributions of all cells. -/
def specHeurSum (gs : GameState) : Int :=
  ((List.range BOARD_DIM).map fun r =>
    ((List.range BOARD_DIM).map fun c => specCellScore gs r c).sum).sum

/-- The per-cell value added by the heuristic loop of raw_score. -/
def codeCellScore (gs : GameState) (row col : Nat) : Int :=
  let color := (gs.board.cell row col).top_color
  if color = Color.empty then 0
  else (if color = Color.white then 1 else -1) *
    (if row = col ∨ row = BOARD_DIM - col - 1 then 3 else 2)

lemma list_any_or {α : Type} (l : List α) (p q : α → Bool) :
    (l.any fun x => p x || q x) = (l.any p || l.any q) := by
  induction l with
  | nil => rfl
  | cons x xs ih => simp [List.any_cons, ih, Bool.or_assoc, Bool.or_comm, Bool.or_left_comm]

lemma foldl_add_sum {α : Type} (l : List α) (f : α → Int) :
    ∀ a : Int, l.foldl (fun acc x => acc + f x) a = a + (l.map f).sum := by
  induction l with
  | nil => intro a; simp
  | cons x xs ih => intro a; simp [ih, add_assoc]

lemma inner_row_fold (gs : GameState) (row : Nat) (l : List Nat) :
    ∀ a : Int,
      l.foldl (fun acc2 col =>
        let color := (gs.board.cell row col).top_color
        if color = Color.empty then acc2
        else
          let base : Int := if row = col ∨ row = BOARD_DIM - col - 1 then 3 else 2
          let mult : Int := if color = Color.white then 1 else -1
          acc2 + mult * base) a
      = a + (l.map fun col => codeCellScore gs row col).sum := by
  induction l with
  | nil => intro a; simp
  | cons x xs ih =>
    intro a
    rw [List.foldl_cons, ih]
    by_cases h : (gs.board.cell row x).top_color = Color.empty <;>
      simp [codeCellScore, h, add_assoc]

lemma cell_score_eq (gs : GameState) (r c : Nat) (hc : c < BOARD_DIM) :
    codeCellScore gs r c = specCellScore gs r c := by
  have hiff : (r = c ∨ r = BOARD_DIM - c - 1) ↔ (r = c ∨ r + c = BOARD_DIM - 1) := by
    unfold BOARD_DIM at *
    omega
  unfold codeCellScore specCellScore
  simp only [hiff]

lemma heur_fold_eq_spec (gs : GameState) : heurFold gs = specHeurSum gs := by
  unfold heurFold specHeurSum
  simp only [inner_row_fold]
  rw [foldl_add_sum]
  rw [zero_add]
  apply congrArg List.sum
  apply List.map_congr_left
  intro r _
  apply congrArg List.sum
  apply List.map_congr_left
  intro c hc
  exact cell_score_eq gs r c (List.mem_range.mp hc)

lemma winLine_eq_code (gs : GameState) (cw : Color) :
    winLineFor gs cw = (rowColWinB gs cw || diagWinB gs cw) := by
  unfold winLineFor rowColWinB diagWinB
  rw [list_any_or]
  simp [Bool.or_assoc]

theorem C8_raw_score_spec (gs : GameState) :
    gs.raw_score =
      if winLineFor gs gs.turn.other then Score.for_color gs.turn.other
      else Score.balanced (specHeurSum gs) := by
  unfold GameState.raw_score
  rw [winLine_eq_code]
  cases h1 : rowColWinB gs gs.turn.other <;> cases h2 : diagWinB gs gs.turn.other <;>
    simp [h1, h2, heur_fold_eq_spec]

end Goblet
